import Mathlib

/-!
Verification of the CMTL tool-orchestration launcher's Execution and
Result-Tracking Engine, embedded shallowly from the Python sources
(`CMTL tool_launcher.py` and `Script/logging_utils.py`).

The embedding models:
  * the JSON results-ledger file and `append_result` (launcher lines 159-174),
    including its intermediate on-disk states and failure modes;
  * `is_executable_available` (lines 132-148);
  * `run_command_capture` (lines 176-189);
  * `load_config` merging against `DEFAULT_CONFIG` (lines 91-115);
  * `run_tool_cli` (lines 348-374) and `run_all_cli` (lines 398-407).

File-system and process effects are modelled by explicit state values and
an environment record of oracles; timestamps are passed as an abstract
string parameter (the code reads the wall clock via `now_ts()`).
-/

namespace CMTL

/-! ## Result-ledger file model

The ledger is the file `output/results.json`.  Its on-disk content is
modelled at the granularity the code observes through `json.load` and
`json.dump`:
  * `array l`     — a well-formed JSON array deserializing to the records `l`;
  * `nonArrayJson`— text that parses as JSON but is not an array
                    (`json.load` succeeds, `isinstance(_, list)` is false);
  * `unparseable` — text that makes `json.load` raise;
  * `midWrite`    — a truncated / partially written serialization, as left
                    by `open(path, "w")` before `json.dump` has completed
                    (also makes `json.load` raise).
-/
inductive FileContent (α : Type) where
  | array (records : List α)
  | nonArrayJson
  | unparseable
  | midWrite
  deriving Repr, DecidableEq

/-- Whether the content is a well-formed JSON array. -/
def FileContent.isArray {α : Type} : FileContent α → Bool
  | .array _ => true
  | _ => false

/-- Outcome of `json.load` on the ledger file followed by the
`isinstance(results, list)` test: `.ok (some l)` when the file parses to an
array, `.ok none` when it parses to a non-array value, `.error` when
`json.load` raises. -/
def jsonLoadList {α : Type} : FileContent α → Except String (Option (List α))
  | .array l => .ok (some l)
  | .nonArrayJson => .ok none
  | .unparseable => .error "json decode error"
  | .midWrite => .error "json decode error"

/-- The read phase of `append_result`: on a parsed array return it, on a
non-array or on a parse exception fall back to the empty list.  This is the
code's

  results = []
  try:
      with open(RESULTS_JSON, "r", ...) as f:
          results = json.load(f)
          if not isinstance(results, list):
              results = []
  except Exception:
      results = []
-/
def loadResults {α : Type} (fs : FileContent α) : List α :=
  match jsonLoadList fs with
  | .ok (some l) => l
  | .ok none => []
  | .error _ => []

/-- Same read phase, keeping the exception channel explicit: any error from
`jsonLoadList` is caught and turned into a normal `[]` return, so the
result is always `.ok`. -/
def load_results_caught {α : Type} (fs : FileContent α) : Except String (List α) :=
  match jsonLoadList fs with
  | .ok (some l) => .ok l
  | .ok none => .ok []
  | .error _ => .ok []

/-- How the write phase of `append_result` ends.  The code does
`open(RESULTS_JSON, "w")` (truncating the file in place) and then
`json.dump(results, f)`:
  * `ok`       — open and dump both complete;
  * `failOpen` — `open` itself raises, the file is untouched;
  * `failDump` — `open` succeeded (the file is already truncated) and the
                 dump raises part-way (disk full, unserializable record),
                 leaving truncated or partial content. -/
inductive WriteOutcome where
  | ok
  | failOpen
  | failDump
  deriving Repr, DecidableEq

/-- The write phase: resulting file content paired with the exception
channel of the `with open(...): json.dump(...)` block before the
surrounding `except` runs. -/
def write_results {α : Type} (fs : FileContent α) (rs : List α) :
    WriteOutcome → FileContent α × Except String Unit
  | .ok => (.array rs, .ok ())
  | .failOpen => (fs, .error "open failed")
  | .failDump => (.midWrite, .error "write failed")

/-- The whole of `append_result(result_obj)` (launcher lines 159-174):
read-catch, push onto the tail, write, with the trailing
`except Exception: pass` swallowing any write error.  Returns the new file
content and what the caller observes (always a normal return). -/
def append_result {α : Type} (fs : FileContent α) (r : α) (w : WriteOutcome) :
    FileContent α × Except String Unit :=
  let results := loadResults fs ++ [r]
  let (fs2, _raised) := write_results fs results w
  (fs2, .ok ())

/-- The successive on-disk contents during one (uninterrupted) append:
initial content, the state after `open(path, "w")` has truncated the file,
and the state after `json.dump` has completed. -/
def appendTrace {α : Type} (fs : FileContent α) (r : α) : List (FileContent α) :=
  [fs, .midWrite, .array (loadResults fs ++ [r])]

/-- The ledger file together with an optional backup copy of former
content; the source never creates any backup file (there is no copy,
rename or backup-suffix logic anywhere in `append_result` or its callers). -/
structure LedgerDisk (α : Type) where
  main : FileContent α
  backup : Option (FileContent α)
  deriving Repr, DecidableEq

/-- The read phase of `append_result` viewed as the engine's `loadAll`:
it only reads `main`; no backup is written, the disk is unchanged. -/
def load_phase {α : Type} (d : LedgerDisk α) : List α × LedgerDisk α :=
  (loadResults d.main, d)

/-! ## Concurrent appends

`append_result` takes no lock (the module creates no `threading.Lock`
and the GUI dispatches `run_all_cli` and the mini tools on daemon threads
that all call `append_result` directly).  Two concurrent appends are
modelled as interleavings of their read and write steps: each thread first
evaluates `loadResults` on the shared file and buffers its extended list,
then writes its buffer back. -/

structure RaceState (α : Type) where
  fs : FileContent α
  bufA : List α
  bufB : List α

/-- One atomic step of one of the two racing appends. -/
inductive RaceStep where
  | readA
  | writeA
  | readB
  | writeB
  deriving Repr, DecidableEq

/-- Effect of a step: a read captures `loadResults fs ++ [record]` into the
thread's local buffer, a write stores the buffer as the new array. -/
def raceStepRun {α : Type} (a b : α) (s : RaceState α) : RaceStep → RaceState α
  | .readA => { s with bufA := loadResults s.fs ++ [a] }
  | .writeA => { s with fs := .array s.bufA }
  | .readB => { s with bufB := loadResults s.fs ++ [b] }
  | .writeB => { s with fs := .array s.bufB }

/-- Run a schedule of steps from an initial file content. -/
def runSched {α : Type} (a b : α) (sched : List RaceStep) (fs : FileContent α) :
    FileContent α :=
  (sched.foldl (raceStepRun a b) ⟨fs, [], []⟩).fs

/-- All interleavings of the two appends' read-then-write step pairs. -/
def interleavings : List (List RaceStep) :=
  [[.readA, .writeA, .readB, .writeB],
   [.readA, .readB, .writeA, .writeB],
   [.readA, .readB, .writeB, .writeA],
   [.readB, .readA, .writeA, .writeB],
   [.readB, .readA, .writeB, .writeA],
   [.readB, .writeB, .readA, .writeA]]

/-! ## Availability checker and process executor -/

/-- A command specification as it appears under the config's `"tools"` key:
either a single string to be used as the executable, or an argument vector.
A missing entry is modelled as `Option.none` at use sites. -/
inductive CmdSpec where
  | strSpec (s : String)
  | listSpec (l : List String)
  deriving Repr, DecidableEq

/-- Outcome of `subprocess.run(cmd_list, capture_output=True, text=True,
timeout=...)`: normal completion with both captured streams and the exit
code, `FileNotFoundError`, `subprocess.TimeoutExpired`, or any other
exception with its message. -/
inductive ProcResult where
  | completed (stdout stderr : String) (returncode : Int)
  | notFound
  | timedOut
  | otherError (msg : String)
  deriving Repr, DecidableEq

/-- Oracles for the operating-system queries made by the launcher:
`os.path.isabs`, `os.path.exists`, `os.access(-, os.X_OK)`,
`shutil.which(-) is not None`, and the outcome of `subprocess.run` on a
given argument vector. -/
structure Env where
  isAbs : String → Bool
  pathExists : String → Bool
  xOk : String → Bool
  whichOk : String → Bool
  proc : List String → ProcResult

/-- Availability check on one executable token, after the emptiness
guards: an absolute path must exist and be executable, anything else must
resolve on the search path (lines 144-148). -/
def availToken (env : Env) (exe : String) : Bool :=
  if env.isAbs exe then env.pathExists exe && env.xOk exe else env.whichOk exe

/-- The function `is_executable_available(cmd)` (lines 132-148).  `not cmd`
rejects `None`, `""` and `[]`; then the first token (for a list) or the
string itself is the executable locator, rejected again when empty. -/
def is_executable_available (env : Env) : Option CmdSpec → Bool
  | none => false
  | some (.strSpec s) => if s.isEmpty then false else availToken env s
  | some (.listSpec []) => false
  | some (.listSpec (e :: _)) => if e.isEmpty then false else availToken env e

/-- The function `run_command_capture(cmd_list, ...)` (lines 176-189),
applied to the subprocess outcome: on completion success is
`returncode == 0` and the combined text is stdout followed, when stderr is
non-empty, by a "\nERR:\n" marker and stderr; the three exception arms
return `False` with a fixed message. -/
def run_command_capture (cmd_list : List String) : ProcResult → Bool × String
  | .completed out err code =>
      let combined := out ++ (if err.isEmpty then "" else "\nERR:\n" ++ err)
      (code == 0, combined)
  | .notFound => (false, "Command not found: " ++ cmd_list.headD "")
  | .timedOut => (false, "Command timed out.")
  | .otherError msg => (false, msg)

/-! ## Ledger records and the orchestrator -/

/-- The record shapes `append_result` receives from `run_tool_cli` and
`run_all_cli`: the no-launcher record, the per-invocation record, and the
aggregate run record with its summary of (tool, success, time) triples. -/
inductive LedgerRecord where
  | noLauncher (tool time note : String)
  | toolRun (tool cmd time : String) (success : Bool) (preview : String)
  | runAllSummary (time : String) (summary : List (String × Bool × String))
  deriving Repr, DecidableEq

/-- The parts of the loaded configuration that `run_tool_cli` reads: the
`"tools"` registry in registration order and the `"paths"` override table
(string-valued overrides; a non-string override is skipped by the
`isinstance(explicit, str)` guard and behaves like an absent one). -/
structure Config where
  tools : List (String × CmdSpec)
  paths : List (String × String)

/-- Whether a registry value is falsy in Python (`if not cmd`): an empty
argument vector or an empty string. -/
def specFalsy : CmdSpec → Bool
  | .strSpec s => s.isEmpty
  | .listSpec l => l.isEmpty

/-- The override key `tool_name.lower().split()[0] + "_path"` used at
lines 355-356.  Python's `split()` drops empty fields; the model returns
the key `"_path"` for a whitespace-only name, where Python would raise an
IndexError (no registry in the sources names a tool that way). -/
def pathKey (name : String) : String :=
  (((name.toLower).splitOn " ").filter (fun w => !w.isEmpty)).headD "" ++ "_path"

/-- The command vector `run_tool_cli` will execute for a tool, or `none`
when the registry has no (truthy) entry: the explicit path override wins,
otherwise the registry value (a string becomes a one-token vector), with
`extra_args or []` appended (lines 349-367). -/
def final_cmd_for (cfg : Config) (name : String) (extra : List String) :
    Option (List String) :=
  match cfg.tools.lookup name with
  | none => none
  | some spec =>
    if specFalsy spec then none
    else
      let explicit := (cfg.paths.lookup (pathKey name)).getD ""
      if !explicit.isEmpty then some (explicit :: extra)
      else
        match spec with
        | .listSpec l => some (l ++ extra)
        | .strSpec s => some ([s] ++ extra)

/-- The function `run_tool_cli(tool_name, extra_args, capture=True)`
(lines 348-374).  Returns the ledger records appended during the call
together with the `(ok, message)` pair the caller receives.  Note the
middle branch: when the resolved command is not available the function
returns early and appends no record. -/
def run_tool_cli (env : Env) (cfg : Config) (name : String) (extra : List String)
    (time : String) : List LedgerRecord × Bool × String :=
  match final_cmd_for cfg name extra with
  | none =>
      ([.noLauncher name time "No local launcher defined"], false,
       "No local launcher defined for this tool.")
  | some fc =>
      if !is_executable_available env (some (.listSpec fc)) then
        ([], false, "Executable not found: " ++ fc.headD "")
      else
        let (ok, out) := run_command_capture fc (env.proc fc)
        ([.toolRun name (String.intercalate " " fc) time ok
            (if out.isEmpty then "" else out.take 200)], ok, out)

/-- The loop body of `run_all_cli` over the tool-name list: collect every
appended ledger record and one `(tool, success, time)` summary entry per
tool, in order. -/
def run_all_loop (env : Env) (cfg : Config) (time : String) :
    List String → List LedgerRecord × List (String × Bool × String)
  | [] => ([], [])
  | t :: ts =>
      let (recs, ok, _out) := run_tool_cli env cfg t [] time
      let (restRecs, restSum) := run_all_loop env cfg time ts
      (recs ++ restRecs, (t, ok, time) :: restSum)

/-- The function `run_all_cli(tool_list=None)` (lines 398-407) with the
default tool list (the registry keys in registration order): run every
tool sequentially, then append one aggregate record carrying the summary.
Returns all ledger records appended during the run and the summary. -/
def run_all_cli (env : Env) (cfg : Config) (time : String) :
    List LedgerRecord × List (String × Bool × String) :=
  let (recs, summary) := run_all_loop env cfg time (cfg.tools.map Prod.fst)
  (recs ++ [.runAllSummary time summary], summary)

/-- Whether `run_tool_cli` skips the ledger record for this tool: a truthy
registry entry whose resolved command fails the availability check. -/
def toolSkipped (env : Env) (cfg : Config) (name : String) : Bool :=
  match final_cmd_for cfg name [] with
  | none => false
  | some fc => !is_executable_available env (some (.listSpec fc))

/-! ## Config resolver

`load_config` (lines 91-115) parses `config.json` and merges missing
defaults into it.  Parsed JSON values are modelled at the granularity the
merge loop distinguishes: mappings (`table`), strings (`atomS`, where the
Python `in` operator is a substring test and item assignment raises),
arrays of strings (`arr`, where `in` is membership and item assignment
raises), and every other scalar (`atomI`, where `in` itself raises).
JSON objects are association lists queried by first match, mirroring the
unique-key dictionaries `json.load` produces. -/
inductive CVal where
  | atomS (s : String)
  | atomI (n : Int)
  | arr (l : List String)
  | table (entries : List (String × CVal))

/-- Whether a value is a mapping (`isinstance(v, dict)`). -/
def CVal.isTable : CVal → Bool
  | .table _ => true
  | _ => false

/-- Substring test, Python's `needle in haystack` on strings.  An empty
needle is contained in everything. -/
def containsSub (haystack needle : String) : Bool :=
  needle.isEmpty || (haystack.splitOn needle).length ≥ 2

/-- Replace the value stored at a key, keeping its position — the effect
of `cfg[k] = merged` on an existing dictionary key. -/
def updateAssoc (l : List (String × CVal)) (k : String) (v : CVal) :
    List (String × CVal) :=
  l.map (fun p => if p.1 == k then (p.1, v) else p)

/-- The inner merge loop

  for subk, subv in v.items():
      if subk not in cfg[k]:
          cfg[k][subk] = subv

on a mapping `cfg[k]`: missing sub-keys are appended in default order. -/
def mergeSubTable (sub cur : List (String × CVal)) : List (String × CVal) :=
  sub.foldl (fun acc p => if (acc.lookup p.1).isSome then acc else acc ++ [p]) cur

/-- The same inner loop on an arbitrary loaded value `cfg[k]` when the
default `v` is a mapping.  On a non-mapping the loop raises (`.error`)
unless it never reaches a raising operation: for a string, `subk not in
cfg[k]` is a substring test and only a missing sub-key reaches the raising
assignment; for an array of strings likewise with membership; for any
other scalar the `in` itself raises as soon as the loop body runs. -/
def mergeSub (sub : List (String × CVal)) : CVal → Except Unit CVal
  | .table cur => .ok (.table (mergeSubTable sub cur))
  | .atomS s => if sub.all (fun p => containsSub s p.1) then .ok (.atomS s) else .error ()
  | .arr l => if sub.all (fun p => l.contains p.1) then .ok (.arr l) else .error ()
  | .atomI n => if sub.isEmpty then .ok (.atomI n) else .error ()

/-- The outer merge loop over the default items, threading the mutated
configuration dictionary:

  for k, v in DEFAULT_CONFIG.items():
      if k not in cfg:
          cfg[k] = v
      else:
          if isinstance(v, dict):
              ... inner loop ...

A missing key is appended (dictionary insertion order); a present key with
a mapping default goes through the inner loop. -/
def mergeConfig (dflt cfg : List (String × CVal)) :
    Except Unit (List (String × CVal)) :=
  match dflt with
  | [] => .ok cfg
  | (k, v) :: rest =>
    match cfg.lookup k with
    | none => mergeConfig rest (cfg ++ [(k, v)])
    | some cur =>
      match v with
      | .table sub => do
          let merged ← mergeSub sub cur
          mergeConfig rest (updateAssoc cfg k merged)
      | _ => mergeConfig rest cfg

/-- Whether iterating a mapping default `v` over a non-mapping `cfg` value
avoids every raising operation: only an empty mapping does (the loop body
never runs). -/
def subLoopSafe : CVal → Bool
  | .table sub => sub.isEmpty
  | _ => true

/-- The merge applied to the whole parsed value.  `json.load` may return a
non-object: then `k not in cfg` / `cfg[k] = v` / `cfg[k]` raise exactly as
in `mergeSub`, key by key. -/
def mergeTop (dflt : List (String × CVal)) : CVal → Except Unit CVal
  | .table entries => (mergeConfig dflt entries).map .table
  | .atomS s =>
      if dflt.all (fun p => containsSub s p.1 && subLoopSafe p.2) then .ok (.atomS s)
      else .error ()
  | .arr l =>
      if dflt.all (fun p => l.contains p.1 && subLoopSafe p.2) then .ok (.arr l)
      else .error ()
  | .atomI n => if dflt.isEmpty then .ok (.atomI n) else .error ()

/-- The `"tools"` mapping of `DEFAULT_CONFIG` (lines 55-76). -/
def defaultTools : List (String × CVal) :=
  [("Nmap", .arr ["nmap"]),
   ("Zenmap", .arr ["zenmap"]),
   ("Angry IP Scanner", .arr ["ipscan"]),
   ("Advanced IP Scanner", .arr ["advanced_ip_scanner"]),
   ("LanSpy", .arr ["lanspy"]),
   ("OpenVAS", .arr ["gvm-start"]),
   ("Nessus", .arr ["nessus"]),
   ("QualysGuard", .arr []),
   ("Acunetix", .arr ["acunetix"]),
   ("Metasploit", .arr ["msfconsole"]),
   ("Burp Suite", .arr ["burpsuite"]),
   ("Sparta", .arr ["sparta"]),
   ("Faraday", .arr ["faraday-client"]),
   ("Wireshark", .arr ["wireshark"]),
   ("Maltego", .arr ["maltego"]),
   ("NetworkMiner", .arr ["NetworkMiner"]),
   ("Kismet", .arr ["kismet"]),
   ("Ettercap", .arr ["ettercap"]),
   ("OWASP ZAP", .arr ["zap.sh"]),
   ("Magnet AXIOM",
    .arr ["C:\\Program Files\\Magnet Forensics\\Magnet AXIOM\\AXIOM.exe"])]

/-- The `"paths"` mapping of `DEFAULT_CONFIG` (lines 78-84). -/
def defaultPaths : List (String × CVal) :=
  [("nmap_path", .atomS ""),
   ("metasploit_path", .atomS ""),
   ("burp_path", .atomS ""),
   ("zap_path", .atomS ""),
   ("magnet_axiom_path", .atomS "")]

/-- The hard-coded `DEFAULT_CONFIG` dictionary (lines 51-88). -/
def DEFAULT_CONFIG : List (String × CVal) :=
  [("project_name", .atomS "CyberSec Multi Tool Launcher (CMTL)"),
   ("default_target", .atomS "192.168.1.1"),
   ("timeout_seconds", .atomI 300),
   ("tools", .table defaultTools),
   ("paths", .table defaultPaths),
   ("run_as_admin_required", .arr ["scapy"])]

/-- The branch of `load_config` where `config.json` exists and
`json.load` succeeds on it, applied to the parsed value: merge missing
defaults into it; if the merge raises, print a warning and fall back to a
copy of the defaults (lines 92-108). -/
def load_config (parsed : CVal) : CVal :=
  match mergeTop DEFAULT_CONFIG parsed with
  | .ok merged => merged
  | .error _ => .table DEFAULT_CONFIG

/-- The merge of one default value into one present loaded value, as the
code leaves it when no exception occurs: mapping into mapping inserts the
missing sub-keys, everything else leaves the loaded value unchanged. -/
def mergeVal (v cur : CVal) : CVal :=
  match v, cur with
  | .table sub, .table curE => .table (mergeSubTable sub curE)
  | _, _ => cur

/-- Pointwise description of the merged configuration: a present key keeps
its loaded value (sub-merged under a mapping default), a missing key gets
the default. -/
def lookupMerged (dflt cfg : List (String × CVal)) (key : String) : Option CVal :=
  match cfg.lookup key, dflt.lookup key with
  | some cur, some v => some (mergeVal v cur)
  | some cur, none => some cur
  | none, d => d

/-- Compatibility condition under which the merge cannot raise: every
default key with a mapping value that is present in the loaded
configuration is bound there to a mapping. -/
def tableCompat (dflt cfg : List (String × CVal)) : Bool :=
  dflt.all (fun p =>
    !p.2.isTable ||
      (match cfg.lookup p.1 with
       | some cur => cur.isTable
       | none => true))

/-! ## Association-list helper lemmas -/

/-- First-of-two choice on optional values. -/
def optOr {β : Type} (a b : Option β) : Option β :=
  match a with
  | some x => some x
  | none => b

theorem optOr_none {β : Type} (a : Option β) : optOr a none = a := by
  cases a <;> rfl

theorem lookup_append {β : Type} (l₁ l₂ : List (String × β)) (k : String) :
    (l₁ ++ l₂).lookup k = optOr (l₁.lookup k) (l₂.lookup k) := by
  induction l₁ with
  | nil => simp [optOr]
  | cons p t ih =>
    obtain ⟨a, b⟩ := p
    by_cases h : k = a
    · subst h
      simp [List.lookup_cons, optOr]
    · have hb : (k == a) = false := beq_eq_false_iff_ne.mpr h
      simp [List.lookup_cons, hb, ih]

theorem lookup_eq_none_of_not_mem_keys {β : Type} (l : List (String × β))
    (k : String) (h : k ∉ l.map Prod.fst) : l.lookup k = none := by
  induction l with
  | nil => rfl
  | cons p t ih =>
    obtain ⟨a, b⟩ := p
    simp only [List.map_cons, List.mem_cons, not_or] at h
    have hb : (k == a) = false := beq_eq_false_iff_ne.mpr h.1
    simp [List.lookup_cons, hb, ih h.2]

theorem updateAssoc_cons (a : String) (b : CVal) (t : List (String × CVal))
    (k : String) (v : CVal) :
    updateAssoc ((a, b) :: t) k v =
      (if a == k then (a, v) else (a, b)) :: updateAssoc t k v := rfl

theorem lookup_updateAssoc_self (l : List (String × CVal)) (k : String)
    (v cur : CVal) (h : l.lookup k = some cur) :
    (updateAssoc l k v).lookup k = some v := by
  induction l with
  | nil => simp at h
  | cons p t ih =>
    obtain ⟨a, b⟩ := p
    rw [updateAssoc_cons]
    by_cases hk : k = a
    · subst hk
      simp [List.lookup_cons]
    · have hb : (k == a) = false := beq_eq_false_iff_ne.mpr hk
      have hab : (a == k) = false := beq_eq_false_iff_ne.mpr (fun e => hk e.symm)
      simp only [List.lookup_cons, hb] at h
      simp only [hab, Bool.false_eq_true, if_false, List.lookup_cons, hb]
      exact ih h

theorem lookup_updateAssoc_ne (l : List (String × CVal)) (k k' : String)
    (v : CVal) (h : k' ≠ k) :
    (updateAssoc l k v).lookup k' = l.lookup k' := by
  induction l with
  | nil => rfl
  | cons p t ih =>
    obtain ⟨a, b⟩ := p
    rw [updateAssoc_cons]
    cases hab : a == k with
    | true =>
      have hak : a = k := beq_iff_eq.mp hab
      have hb : (k' == a) = false := beq_eq_false_iff_ne.mpr (hak ▸ h)
      simp [List.lookup_cons, hb, ih]
    | false =>
      by_cases hk' : k' = a
      · subst hk'
        simp [List.lookup_cons]
      · have hb : (k' == a) = false := beq_eq_false_iff_ne.mpr hk'
        simp [List.lookup_cons, hb, ih]

theorem mergeSubTable_lookup (sub : List (String × CVal)) :
    ∀ (cur : List (String × CVal)) (sk : String),
      (mergeSubTable sub cur).lookup sk = optOr (cur.lookup sk) (sub.lookup sk) := by
  induction sub with
  | nil => intro cur sk; simp [mergeSubTable, optOr_none]
  | cons p rest ih =>
    intro cur sk
    obtain ⟨a, b⟩ := p
    have hstep : mergeSubTable ((a, b) :: rest) cur =
        mergeSubTable rest (if (cur.lookup a).isSome then cur else cur ++ [(a, b)]) := by
      simp [mergeSubTable]
    rw [hstep, ih]
    by_cases hsk : sk = a
    · subst hsk
      cases hl : cur.lookup sk with
      | some x => simp [hl, List.lookup_cons, optOr]
      | none =>
        simp only [hl, Option.isSome_none, Bool.false_eq_true, if_false]
        rw [lookup_append]
        simp [hl, List.lookup_cons, optOr]
    · have hb : (sk == a) = false := beq_eq_false_iff_ne.mpr hsk
      cases hl : cur.lookup a with
      | some x => simp [hl, List.lookup_cons, hb]
      | none =>
        simp only [hl, Option.isSome_none, Bool.false_eq_true, if_false]
        rw [lookup_append]
        simp [List.lookup_cons, hb, optOr_none]

/-- Main characterization of the merge loop: when every default key with a
mapping value is, if present in the loaded configuration, bound there to a
mapping, the merge completes without raising and its result looks up to
`lookupMerged` at every key. -/
theorem mergeConfig_ok_lookup (dflt : List (String × CVal)) :
    ∀ cfg : List (String × CVal),
      (dflt.map Prod.fst).Nodup →
      tableCompat dflt cfg = true →
      ∃ out, mergeConfig dflt cfg = .ok out ∧
        ∀ key, out.lookup key = lookupMerged dflt cfg key := by
  induction dflt with
  | nil =>
    intro cfg _ _
    refine ⟨cfg, rfl, fun key => ?_⟩
    simp only [lookupMerged, List.lookup_nil]
    cases cfg.lookup key <;> rfl
  | cons p rest ih =>
    obtain ⟨k, v⟩ := p
    intro cfg hnd hc
    have hnd1 : k ∉ rest.map Prod.fst := by
      simp only [List.map_cons, List.nodup_cons] at hnd
      exact hnd.1
    have hnd2 : (rest.map Prod.fst).Nodup := by
      simp only [List.map_cons, List.nodup_cons] at hnd
      exact hnd.2
    have hrestk : rest.lookup k = none := lookup_eq_none_of_not_mem_keys rest k hnd1
    have hc' := hc
    simp only [tableCompat, List.all_cons, Bool.and_eq_true] at hc'
    have hc1 := hc'.1
    have hc2 : tableCompat rest cfg = true := hc'.2
    cases hl : cfg.lookup k with
    | none =>
      have hstep : mergeConfig ((k, v) :: rest) cfg =
          mergeConfig rest (cfg ++ [(k, v)]) := by
        simp [mergeConfig, hl]
      have hc2' : tableCompat rest (cfg ++ [(k, v)]) = true := by
        simp only [tableCompat, List.all_eq_true] at hc2 ⊢
        intro q hq
        have hqk : q.1 ≠ k := fun e => hnd1 (e ▸ List.mem_map_of_mem Prod.fst hq)
        have hsng : ([(k, v)] : List (String × CVal)).lookup q.1 = none := by
          simp [List.lookup_cons, beq_eq_false_iff_ne.mpr hqk]
        rw [lookup_append, hsng, optOr_none]
        exact hc2 q hq
      obtain ⟨out, hout, hch⟩ := ih (cfg ++ [(k, v)]) hnd2 hc2'
      refine ⟨out, by rw [hstep]; exact hout, fun key => ?_⟩
      rw [hch key]
      by_cases hk : key = k
      · subst hk
        have happ : (cfg ++ [(key, v)]).lookup key = some v := by
          rw [lookup_append, hl]
          simp [List.lookup_cons, optOr]
        simp only [lookupMerged, hrestk, hl, happ, List.lookup_cons, beq_self_eq_true]
      · have hb : (key == k) = false := beq_eq_false_iff_ne.mpr hk
        have happ : (cfg ++ [(k, v)]).lookup key = cfg.lookup key := by
          have hsng : ([(k, v)] : List (String × CVal)).lookup key = none := by
            simp [List.lookup_cons, hb]
          rw [lookup_append, hsng, optOr_none]
        simp only [lookupMerged, List.lookup_cons, hb, happ]
    | some cur =>
      by_cases hv : v.isTable = true
      · cases v with
        | atomS s => simp [CVal.isTable] at hv
        | atomI n => simp [CVal.isTable] at hv
        | arr l => simp [CVal.isTable] at hv
        | table sub =>
          have hcur : cur.isTable = true := by
            simp only [CVal.isTable, Bool.not_true, Bool.false_or, hl] at hc1
            exact hc1
          obtain ⟨curE, rfl⟩ : ∃ curE, cur = .table curE := by
            cases cur with
            | table e => exact ⟨e, rfl⟩
            | atomS s => simp [CVal.isTable] at hcur
            | atomI n => simp [CVal.isTable] at hcur
            | arr l => simp [CVal.isTable] at hcur
          have hstep : mergeConfig ((k, .table sub) :: rest) cfg =
              mergeConfig rest (updateAssoc cfg k (.table (mergeSubTable sub curE))) := by
            simp only [mergeConfig, hl, mergeSub]
            rfl
          have hc2' : tableCompat rest
              (updateAssoc cfg k (.table (mergeSubTable sub curE))) = true := by
            simp only [tableCompat, List.all_eq_true] at hc2 ⊢
            intro q hq
            have hqk : q.1 ≠ k := fun e => hnd1 (e ▸ List.mem_map_of_mem Prod.fst hq)
            rw [lookup_updateAssoc_ne cfg k q.1 _ hqk]
            exact hc2 q hq
          obtain ⟨out, hout, hch⟩ := ih _ hnd2 hc2'
          refine ⟨out, by rw [hstep]; exact hout, fun key => ?_⟩
          rw [hch key]
          by_cases hk : key = k
          · subst hk
            have hupd := lookup_updateAssoc_self cfg key
              (.table (mergeSubTable sub curE)) (.table curE) hl
            simp only [lookupMerged, hrestk, hl, hupd, List.lookup_cons,
              beq_self_eq_true, mergeVal]
          · have hb : (key == k) = false := beq_eq_false_iff_ne.mpr hk
            have hupd := lookup_updateAssoc_ne cfg k key
              (.table (mergeSubTable sub curE)) hk
            simp only [lookupMerged, List.lookup_cons, hb, hupd]
      · have hstep : mergeConfig ((k, v) :: rest) cfg = mergeConfig rest cfg := by
          cases v with
          | table sub => simp [CVal.isTable] at hv
          | atomS s => simp [mergeConfig, hl]
          | atomI n => simp [mergeConfig, hl]
          | arr l => simp [mergeConfig, hl]
        have hmv : mergeVal v cur = cur := by
          cases v with
          | table sub => simp [CVal.isTable] at hv
          | atomS s => rfl
          | atomI n => rfl
          | arr l => rfl
        obtain ⟨out, hout, hch⟩ := ih cfg hnd2 hc2
        refine ⟨out, by rw [hstep]; exact hout, fun key => ?_⟩
        rw [hch key]
        by_cases hk : key = k
        · subst hk
          simp only [lookupMerged, hrestk, hl, List.lookup_cons, beq_self_eq_true, hmv]
        · have hb : (key == k) = false := beq_eq_false_iff_ne.mpr hk
          simp only [lookupMerged, List.lookup_cons, hb]

/-! ## Claims about the result ledger -/

/-- Claim C2 as stated: on unparseable or non-array ledger content, the
read phase returns the empty sequence and a backup copy of the original
content is left on disk. -/
def ledgerBackupClaim : Prop :=
  ∀ d : LedgerDisk LedgerRecord, d.main.isArray = false →
    (load_phase d).1 = [] ∧ (load_phase d).2.backup = some d.main

/-- C2, counterexample: on an unparseable ledger file with no pre-existing
backup, the read phase returns the empty sequence but leaves no backup
copy — `append_result` has no backup logic at all. -/
theorem ledger_no_backup_cex : ¬ ledgerBackupClaim := by
  intro h
  have hcl := h ⟨.unparseable, none⟩ rfl
  exact Option.noConfusion hcl.2

/-- C2, amended: on unparseable or non-array content the read phase of
append returns the empty sequence and never propagates an error (the
exception is caught internally), but no backup copy is made — the disk is
left exactly as it was. -/
theorem load_phase_corrupt_amended (d : LedgerDisk LedgerRecord)
    (h : d.main.isArray = false) :
    (load_phase d).1 = [] ∧ (load_phase d).2 = d ∧
      load_results_caught d.main = .ok [] := by
  refine ⟨?_, rfl, ?_⟩
  · cases hm : d.main <;>
      simp_all [load_phase, loadResults, jsonLoadList, FileContent.isArray]
  · cases hm : d.main <;>
      simp_all [load_results_caught, jsonLoadList, FileContent.isArray]

/-- Witness for the amended C2 at a concrete corrupt disk. -/
theorem load_phase_corrupt_witness :
    (LedgerDisk.mk (FileContent.unparseable : FileContent LedgerRecord)
        none).main.isArray = false ∧
      ((load_phase (LedgerDisk.mk (FileContent.unparseable : FileContent LedgerRecord)
          none)).1 = [] ∧
        (load_phase (LedgerDisk.mk (FileContent.unparseable : FileContent LedgerRecord)
          none)).2 = LedgerDisk.mk FileContent.unparseable none ∧
        load_results_caught (FileContent.unparseable : FileContent LedgerRecord) =
          .ok []) :=
  ⟨rfl, load_phase_corrupt_amended ⟨.unparseable, none⟩ rfl⟩

/-- C3: appending a record to a well-formed ledger and reading it back
yields the prior records unchanged and in order, with the new record as
the last element. -/
theorem append_then_load_roundtrip (l : List LedgerRecord) (r : LedgerRecord) :
    loadResults ((append_result (.array l) r .ok).1) = l ++ [r] ∧
      (loadResults ((append_result (.array l) r .ok).1)).getLast? = some r ∧
      (loadResults ((append_result (.array l) r .ok).1)).dropLast = l := by
  refine ⟨rfl, ?_, ?_⟩
  · show (l ++ [r]).getLast? = some r
    exact List.getLast?_concat l
  · show (l ++ [r]).dropLast = l
    exact List.dropLast_concat

/-- Claim C8 as stated: every on-disk state during an append is either the
original content or the final serialized array, so an interruption
mid-write can never leave a truncated file. -/
def atomicRewriteClaim : Prop :=
  ∀ (fs : FileContent LedgerRecord) (r : LedgerRecord),
    ∀ c ∈ appendTrace fs r, c = fs ∨ c = .array (loadResults fs ++ [r])

/-- C8, counterexample: the write is an in-place truncate-then-dump
(`open(path, "w")` before `json.dump`), so the trace passes through a
truncated state that is neither the old nor the new content. -/
theorem append_not_atomic_cex : ¬ atomicRewriteClaim := by
  intro h
  rcases h (.array []) (.noLauncher "Nmap" "T" "n") .midWrite
      (by simp [appendTrace]) with h' | h'
  · exact FileContent.noConfusion h'
  · exact FileContent.noConfusion h'

/-- C8, amended: a completed append does leave a well-formed array holding
the whole sequence, but the rewrite is in place: between truncation and
completion the on-disk content is not a well-formed array. -/
theorem append_in_place_rewrite (fs : FileContent LedgerRecord) (r : LedgerRecord) :
    (appendTrace fs r).getLast? = some (.array (loadResults fs ++ [r])) ∧
      (FileContent.array (loadResults fs ++ [r])).isArray = true ∧
      FileContent.midWrite ∈ appendTrace fs r ∧
      (FileContent.midWrite : FileContent LedgerRecord).isArray = false := by
  refine ⟨rfl, rfl, ?_, rfl⟩
  simp [appendTrace]

/-- Claim C9 as stated: appends mutually exclude each other, so under any
interleaving of two concurrent appends neither record is lost. -/
def noLostUpdateClaim : Prop :=
  ∀ sched ∈ interleavings, ∀ (l : List LedgerRecord) (a b : LedgerRecord),
    a ∈ loadResults (runSched a b sched (.array l)) ∧
      b ∈ loadResults (runSched a b sched (.array l))

/-- C9, counterexample: `append_result` takes no lock, so the interleaving
in which both threads read before either writes is possible, and it loses
the first record. -/
theorem race_lost_update_cex : ¬ noLostUpdateClaim := by
  intro h
  have hcl := h [.readA, .readB, .writeA, .writeB] (by simp [interleavings]) []
    (.noLauncher "A" "T" "n") (.noLauncher "B" "T" "n")
  exact absurd hcl.1 (by decide)

/-- C9, amended: the unsynchronized read-modify-write preserves both
records only when the appends do not overlap; the overlapped
read-read-write-write schedule ends with only the second record appended,
losing the first. -/
theorem race_semantics (l : List LedgerRecord) (a b : LedgerRecord) :
    runSched a b [.readA, .writeA, .readB, .writeB] (.array l) =
        .array ((l ++ [a]) ++ [b]) ∧
      runSched a b [.readA, .readB, .writeA, .writeB] (.array l) =
        .array (l ++ [b]) ∧
      (a ∉ l → a ≠ b →
        a ∉ loadResults (runSched a b [.readA, .readB, .writeA, .writeB]
          (.array l))) := by
  refine ⟨rfl, rfl, fun hnl hne hmem => ?_⟩
  rcases List.mem_append.mp hmem with hin | hin
  · exact hnl hin
  · exact hne (List.mem_singleton.mp hin)

/-- Witness for the amended C9: with two distinct records racing on an
empty ledger, the first record is absent after the overlapped schedule. -/
theorem race_semantics_witness :
    LedgerRecord.noLauncher "A" "T" "n" ∉
      loadResults (runSched (LedgerRecord.noLauncher "A" "T" "n")
        (LedgerRecord.noLauncher "B" "T" "n")
        [.readA, .readB, .writeA, .writeB] (.array [])) :=
  (race_semantics [] (.noLauncher "A" "T" "n") (.noLauncher "B" "T" "n")).2.2
    (by simp) (by decide)

/-- Claim C10 as stated: append never raises, and when the write fails the
on-disk ledger is left in its prior state with the record silently
dropped. -/
def appendPriorStateClaim : Prop :=
  ∀ (fs : FileContent LedgerRecord) (r : LedgerRecord) (w : WriteOutcome),
    (append_result fs r w).2 = .ok () ∧ (w ≠ .ok → (append_result fs r w).1 = fs)

/-- C10, counterexample: when the dump fails after `open(path, "w")` has
already truncated the file, the ledger is left in a truncated mid-write
state, not in its prior state. -/
theorem append_fail_not_prior_cex : ¬ appendPriorStateClaim := by
  intro h
  have hcl := (h (.array [.noLauncher "A" "T" "n"]) (.noLauncher "B" "T" "n")
    .failDump).2 (by decide)
  exact FileContent.noConfusion hcl

/-- C10, amended: append always returns normally with the write exception
swallowed (the caller gets no indication); a failure of `open` itself
leaves the prior content and drops the record, but a failure during the
dump leaves the file truncated. -/
theorem append_result_swallows (fs : FileContent LedgerRecord) (r : LedgerRecord) :
    (∀ w, (append_result fs r w).2 = .ok ()) ∧
      append_result fs r .failOpen = (fs, .ok ()) ∧
      append_result fs r .failDump = (.midWrite, .ok ()) := by
  refine ⟨fun w => ?_, rfl, rfl⟩
  cases w <;> rfl

/-! ## Claims about the process executor and availability checker -/

/-- C5: on a process that runs to completion, success holds exactly for
exit code 0, and the combined output is stdout, followed — only when
stderr is non-empty — by the "\nERR:\n" marker and stderr. -/
theorem run_command_capture_completed (cmd : List String) (out err : String)
    (code : Int) :
    ((run_command_capture cmd (.completed out err code)).1 = true ↔ code = 0) ∧
      (err = "" → (run_command_capture cmd (.completed out err code)).2 = out) ∧
      (err ≠ "" → (run_command_capture cmd (.completed out err code)).2 =
        out ++ "\nERR:\n" ++ err) := by
  refine ⟨?_, fun he => ?_, fun he => ?_⟩
  · simp [run_command_capture]
  · have h0 : ("" : String).isEmpty = true := rfl
    simp [run_command_capture, he, h0]
  · have hne : err.isEmpty = false := by
      cases hi : err.isEmpty
      · rfl
      · exact absurd ((String.isEmpty_iff err).mp hi) he
    simp [run_command_capture, hne, String.append_assoc]

/-- Witness for C5 at a concrete completed process. -/
theorem run_command_capture_witness :
    ("boom" ≠ "") ∧
      (run_command_capture ["tool"] (.completed "hello" "boom" 0)).2 =
        "hello" ++ "\nERR:\n" ++ "boom" :=
  ⟨by decide,
   (run_command_capture_completed ["tool"] "hello" "boom" 0).2.2 (by decide)⟩

/-- C6: availability is false for an absent spec, the empty vector, and an
empty first token; an absolute first token is available exactly when the
path exists and is executable; any other non-empty first token is
available exactly when it resolves on the search path. -/
theorem is_executable_available_spec (env : Env) :
    is_executable_available env none = false ∧
      is_executable_available env (some (.listSpec [])) = false ∧
      is_executable_available env (some (.listSpec [""])) = false ∧
      (∀ e rest, e ≠ "" → env.isAbs e = true →
        is_executable_available env (some (.listSpec (e :: rest))) =
          (env.pathExists e && env.xOk e)) ∧
      (∀ e rest, e ≠ "" → env.isAbs e = false →
        is_executable_available env (some (.listSpec (e :: rest))) =
          env.whichOk e) := by
  have hemp : ∀ e : String, e ≠ "" → e.isEmpty = false := by
    intro e he
    cases hi : e.isEmpty
    · rfl
    · exact absurd ((String.isEmpty_iff e).mp hi) he
  refine ⟨rfl, rfl, rfl, fun e rest he ha => ?_, fun e rest he ha => ?_⟩
  · simp [is_executable_available, hemp e he, availToken, ha]
  · simp [is_executable_available, hemp e he, availToken, ha]

/-- A concrete environment whose only absolute, existing, executable path
is "/bin/sh" and in which nothing resolves on the search path. -/
def envShell : Env :=
  { isAbs := fun s => s == "/bin/sh"
    pathExists := fun s => s == "/bin/sh"
    xOk := fun s => s == "/bin/sh"
    whichOk := fun _ => false
    proc := fun _ => .notFound }

/-- Witness for C6: in `envShell`, the absolute-path clause applies to
"/bin/sh" and yields availability. -/
theorem is_executable_available_witness :
    is_executable_available envShell (some (.listSpec ["/bin/sh"])) =
      (envShell.pathExists "/bin/sh" && envShell.xOk "/bin/sh") :=
  (is_executable_available_spec envShell).2.2.2.1 "/bin/sh" [] (by decide) (by decide)

/-! ## Claims about the orchestrator -/

/-- Per-tool ledger-record count of `run_tool_cli`: one record unless the
tool has a defined command that fails the availability check, in which
case the early return at lines 368-369 appends nothing. -/
theorem run_tool_cli_record_count (env : Env) (cfg : Config) (t time : String) :
    ((run_tool_cli env cfg t [] time).1).length =
      if toolSkipped env cfg t then 0 else 1 := by
  unfold run_tool_cli toolSkipped
  cases h : final_cmd_for cfg t [] with
  | none => rfl
  | some fc =>
    cases ha : is_executable_available env (some (.listSpec fc)) <;> simp [ha]

/-- Unfolding equation for the `run_all_cli` loop. -/
theorem run_all_loop_cons (env : Env) (cfg : Config) (time t : String)
    (ts : List String) :
    run_all_loop env cfg time (t :: ts) =
      ((run_tool_cli env cfg t [] time).1 ++ (run_all_loop env cfg time ts).1,
        (t, (run_tool_cli env cfg t [] time).2.1, time) ::
          (run_all_loop env cfg time ts).2) := by
  cases hrt : run_tool_cli env cfg t [] time with
  | mk recs rest =>
    cases rest with
    | mk ok out =>
      cases hrl : run_all_loop env cfg time ts with
      | mk rr rs => simp [run_all_loop, hrt, hrl]

/-- Record and summary counts of the loop: every tool contributes exactly
one summary entry, and one ledger record unless skipped. -/
theorem run_all_loop_counts (env : Env) (cfg : Config) (time : String)
    (names : List String) :
    ((run_all_loop env cfg time names).1).length =
        names.countP (fun t => !toolSkipped env cfg t) ∧
      ((run_all_loop env cfg time names).2).length = names.length := by
  induction names with
  | nil => exact ⟨rfl, rfl⟩
  | cons t ts ih =>
    rw [run_all_loop_cons]
    constructor
    · simp only [List.length_append, List.countP_cons, ih.1,
        run_tool_cli_record_count]
      cases toolSkipped env cfg t <;> simp [Nat.add_comm]
    · simp [ih.2]

/-- Claim C1 as stated: a full run always appends exactly one record per
registry entry plus one aggregate record. -/
def runAllCountClaim : Prop :=
  ∀ (env : Env) (cfg : Config) (time : String),
    ((run_all_cli env cfg time).1).length = cfg.tools.length + 1

/-- An environment in which nothing is absolute, nothing exists, and
nothing resolves on the search path. -/
def envNothing : Env :=
  { isAbs := fun _ => false
    pathExists := fun _ => false
    xOk := fun _ => false
    whichOk := fun _ => false
    proc := fun _ => .notFound }

/-- A one-tool registry whose only command is defined but unavailable. -/
def cfgNmap : Config := { tools := [("Nmap", .listSpec ["nmap"])], paths := [] }

/-- C1, counterexample: with one defined-but-unavailable tool, the run
appends only the aggregate record (1 record, not 2): `run_tool_cli`
returns early on the availability failure without writing a record. -/
theorem run_all_missing_record_cex : ¬ runAllCountClaim := by
  intro h
  exact absurd (h envNothing cfgNmap "T") (by decide)

/-- C1, amended: a full run terminates, produces one summary entry per
registry tool (a failing tool never stops the iteration), and appends one
aggregate record plus one record per tool except the tools whose command
is defined but unavailable, which append none. -/
theorem run_all_cli_record_count (env : Env) (cfg : Config) (time : String) :
    ((run_all_cli env cfg time).1).length =
        1 + (cfg.tools.map Prod.fst).countP (fun t => !toolSkipped env cfg t) ∧
      ((run_all_cli env cfg time).2).length = cfg.tools.length := by
  unfold run_all_cli
  cases hrl : run_all_loop env cfg time (cfg.tools.map Prod.fst) with
  | mk recs summary =>
    have hc := run_all_loop_counts env cfg time (cfg.tools.map Prod.fst)
    rw [hrl] at hc
    refine ⟨?_, ?_⟩
    · simp only [List.length_append, List.length_cons, List.length_nil]
      rw [show (recs : List LedgerRecord).length = recs.length from rfl]
      rw [hc.1]
      exact Nat.add_comm _ 1
    · simpa [List.length_map] using hc.2

/-- Claim C7's substitution statement: the command executed for a registry
template carries the run's target wherever the template carries the
"\x7btarget\x7d" placeholder token. -/
def targetSubstClaim (cfg : Config) (name : String) (tmpl : List String)
    (target : String) : Prop :=
  cfg.tools.lookup name = some (.listSpec tmpl) →
    ∃ ex, final_cmd_for cfg name [] = some ex ∧
      ∀ i (h : i < tmpl.length) (h' : i < ex.length),
        tmpl.get ⟨i, h⟩ = "\x7btarget\x7d" → ex.get ⟨i, h'⟩ = target

/-- A registry with one tool whose template carries a target placeholder. -/
def cfgEcho : Config :=
  { tools := [("EchoTool", .listSpec ["echo", "\x7btarget\x7d"])], paths := [] }

/-- C7, counterexample: for the placeholder-bearing template and target
"10.0.0.1", the command actually executed still contains the literal
placeholder — neither `run_all_cli` nor `run_tool_cli` performs any
substitution (no target parameter exists in either function). -/
theorem no_target_substitution_cex :
    ¬ targetSubstClaim cfgEcho "EchoTool" ["echo", "\x7btarget\x7d"] "10.0.0.1" := by
  intro h
  obtain ⟨ex, hex, hsub⟩ := h rfl
  have hval : final_cmd_for cfgEcho "EchoTool" [] =
      some ["echo", "\x7btarget\x7d"] := rfl
  rw [hval] at hex
  injection hex with he
  subst he
  exact absurd (hsub 1 (by decide) (by decide) (by decide)) (by decide)

/-- Summary entries of the loop carry the tool names in order. -/
theorem run_all_loop_summary_names (env : Env) (cfg : Config) (time : String)
    (names : List String) :
    ((run_all_loop env cfg time names).2).map Prod.fst = names := by
  induction names with
  | nil => rfl
  | cons t ts ih =>
    rw [run_all_loop_cons]
    simp [ih]

/-- C7, amended: the run iterates the registry in registration order, but
the command executed for each tool is its configured template verbatim
(path override aside): no target value is substituted, so any
"\x7btarget\x7d" token is passed through unchanged. -/
theorem run_all_order_and_verbatim (env : Env) (cfg : Config) (time : String) :
    ((run_all_cli env cfg time).2).map Prod.fst = cfg.tools.map Prod.fst ∧
      (∀ name tmpl, cfg.tools.lookup name = some (.listSpec tmpl) →
        tmpl ≠ [] →
        (cfg.paths.lookup (pathKey name)).getD "" = "" →
        final_cmd_for cfg name [] = some tmpl) := by
  constructor
  · unfold run_all_cli
    cases hrl : run_all_loop env cfg time (cfg.tools.map Prod.fst) with
    | mk recs summary =>
      have := run_all_loop_summary_names env cfg time (cfg.tools.map Prod.fst)
      rw [hrl] at this
      simpa using this
  · intro name tmpl hlk hne hexp
    cases tmpl with
    | nil => exact absurd rfl hne
    | cons a as =>
      have h0 : ("" : String).isEmpty = true := rfl
      simp [final_cmd_for, hlk, specFalsy, hexp, h0]

/-- Witness for the amended C7: the placeholder-bearing template is
executed verbatim. -/
theorem run_all_verbatim_witness :
    final_cmd_for cfgEcho "EchoTool" [] = some ["echo", "\x7btarget\x7d"] :=
  (run_all_order_and_verbatim envNothing cfgEcho "T").2 "EchoTool"
    ["echo", "\x7btarget\x7d"] rfl (by decide) rfl

/-! ## Claims about the config resolver -/

/-- Claim C4 as stated, for a parsed configuration object: the resolver
returns the loaded configuration with missing top-level defaults inserted,
missing sub-keys inserted under mapping defaults, and every present key
keeping its loaded value (modulo that sub-key insertion). -/
def configMergeClaim (entries : List (String × CVal)) : Prop :=
  ∃ outE, load_config (.table entries) = .table outE ∧
    (∀ k cur, entries.lookup k = some cur →
      outE.lookup k = some (match DEFAULT_CONFIG.lookup k with
        | some v => mergeVal v cur
        | none => cur)) ∧
    (∀ k v, DEFAULT_CONFIG.lookup k = some v → entries.lookup k = none →
      outE.lookup k = some v)

/-- C4, counterexample: a parsed object binding "tools" to the scalar 5
makes the merge loop raise (`"Nmap" not in 5`), so `load_config` falls
back to the full default registry and the loaded value of "tools" is
discarded instead of kept. -/
theorem config_merge_cex : ¬ configMergeClaim [("tools", .atomI 5)] := by
  intro h
  obtain ⟨outE, hout, hpres, _⟩ := h
  have hcomp : load_config (CVal.table [("tools", .atomI 5)]) =
      .table DEFAULT_CONFIG := rfl
  have he : DEFAULT_CONFIG = outE := by
    have := hcomp.symm.trans hout
    injection this
  subst he
  have hp := hpres "tools" (.atomI 5) rfl
  have hd : DEFAULT_CONFIG.lookup "tools" = some (.table defaultTools) := rfl
  have hcontr : some (CVal.table defaultTools) = some (CVal.atomI 5) :=
    hd.symm.trans hp
  injection hcontr with hcc
  exact CVal.noConfusion hcc

/-- C4, amended: the claimed merge behaviour holds whenever every loaded
top-level value sitting under a mapping-valued default key is itself a
mapping (otherwise the loop raises and the resolver falls back to the full
defaults); at the sub-level, present sub-keys keep their loaded values and
missing sub-keys are filled from the default mapping. -/
theorem load_config_merge (entries : List (String × CVal))
    (hc : tableCompat DEFAULT_CONFIG entries = true) :
    configMergeClaim entries ∧
      (∀ sub curE sk,
        (mergeSubTable sub curE).lookup sk = optOr (curE.lookup sk) (sub.lookup sk)) := by
  constructor
  · have hnd : (DEFAULT_CONFIG.map Prod.fst).Nodup := by decide
    obtain ⟨out, hout, hch⟩ := mergeConfig_ok_lookup DEFAULT_CONFIG entries hnd hc
    refine ⟨out, ?_, ?_, ?_⟩
    · simp only [load_config, mergeTop, hout]
      rfl
    · intro k cur hk
      rw [hch k]
      unfold lookupMerged
      rw [hk]
      cases DEFAULT_CONFIG.lookup k <;> rfl
    · intro k v hv hk
      rw [hch k]
      unfold lookupMerged
      rw [hk, hv]
  · intro sub curE sk
    exact mergeSubTable_lookup sub curE sk

/-- A loaded configuration overriding the default target and one explicit
path, with well-typed (mapping) values under the mapping defaults. -/
def cfgSample : List (String × CVal) :=
  [("default_target", .atomS "10.0.0.5"),
   ("paths", .table [("nmap_path", .atomS "/opt/nmap/bin/nmap")])]

/-- Witness for the amended C4 at `cfgSample`. -/
theorem load_config_merge_witness :
    tableCompat DEFAULT_CONFIG cfgSample = true ∧
      (configMergeClaim cfgSample ∧
        ∀ sub curE sk,
          (mergeSubTable sub curE).lookup sk =
            optOr (curE.lookup sk) (sub.lookup sk)) :=
  ⟨by decide, load_config_merge cfgSample (by decide)⟩

end CMTL
